import Mathlib

/-! thelark/request: a shallow embedding of `request.go`

The Go package `request` builds one HTTP request from a base endpoint and an
ordered list of functional options, sends it, and decodes the JSON reply into a
caller supplied target.

Modelling conventions

* A Go `string` and a Go `[]byte` are byte sequences: `List Nat`, one element per
  byte (`ascii` turns an ASCII literal into its bytes).
* A Go `map[string]string` is a finite partial function `Str → Option Str`;
  iteration `for k, v := range m` visits the entries in an order Go leaves
  unspecified, supplied by the environment.
* An `error` is `Option Error`: `none` is the nil error.
* Standard library calls made by `request.go` (`strings.Split`,
  `mime/multipart`, `net/http`, `encoding/json`) are modelled from their
  documented behaviour in namespaces named after their packages; effects that
  depend on the outside world (random boundary, transport, JSON contents) are
  fields of `Env`.
-/

/-- A Go string: its bytes. -/
abbrev Str := List Nat

/-- A Go byte slice; the nil slice and the empty slice are both `[]`. -/
abbrev Bytes := List Nat

/-- A non-nil Go `error` value, identified by its message. -/
abbrev Error := String

/-- The bytes of an ASCII literal. -/
def ascii (s : String) : Str := s.toList.map Char.toNat

/-! ## `strings.Index`, `strings.Count`, `strings.Split` (non-empty separator) -/

namespace strings

/-- Model of `strings.Index(s, sep)`: offset of the first occurrence of `sep` in `s`,
`none` for Go's `-1`. -/
def Index (sep : Str) : Str → Option Nat
  | [] => if sep = [] then some 0 else none
  | c :: s => if sep.isPrefixOf (c :: s) then some 0 else (Index sep s).map (· + 1)

/-- The loop of `strings.Count`: `i := Index(s, substr); if i == -1 return n; n++;
s = s[i+len(substr):]`, bounded by `fuel` iterations. -/
def countLoop (sep : Str) : Nat → Str → Nat
  | 0, _ => 0
  | fuel + 1, s =>
    match Index sep s with
    | none => 0
    | some i => countLoop sep fuel (s.drop (i + sep.length)) + 1

/-- Model of `strings.Count(s, substr)` for a non-empty `substr`: the number of
non-overlapping occurrences.  Every iteration consumes at least one byte, so
`len(s)` iterations are enough. -/
def Count (s sep : Str) : Nat := countLoop sep s.length s

/-- The loop of `genSplit`: `for i < n { m := Index(s, sep); if m < 0 { break };
a[i] = s[:m]; s = s[m+len(sep):]; i++ }; a[i] = s`, where `fuel` is `n - i`. -/
def genSplit (sep : Str) : Nat → Str → List Str
  | 0, s => [s]
  | fuel + 1, s =>
    match Index sep s with
    | none => [s]
    | some m => s.take m :: genSplit sep fuel (s.drop (m + sep.length))

/-- Model of `strings.Split(s, sep)` for a non-empty `sep`: `genSplit(s, sep, 0, -1)`
with `n = Count(s, sep) + 1` result slots, hence at most `Count(s, sep)` cuts. -/
def Split (s sep : Str) : List Str := genSplit sep (Count s sep) s

end strings

/-! ## The client: `request` and `New` -/

/-- The fields of `url.URL` that `request.go` reads or writes. -/
structure URL where
  Scheme : Str
  Host : Str
  Path : Str
  RawQuery : Str
deriving DecidableEq, Repr

/-- Go: `type request struct { uri url.URL }`. -/
structure request where
  uri : URL
deriving DecidableEq, Repr

/-- The separator literal `"://"`. -/
def schemeSep : Str := [58, 47, 47]

/-- The default scheme literal `"https"`. -/
def https : Str := [104, 116, 116, 112, 115]

/-- Go: `func New(host string) *request`.  Indexing a slice out of range panics in
Go; the model returns `none` there, so that `New` never panicking is a statement
about the model and not an assumption. -/
def New (host : Str) : Option request :=
  let u := strings.Split host schemeSep
  let scheme : Option Str := if u.length > 1 then u[0]? else some https
  match scheme, u[u.length - 1]? with
  | some scheme, some h => some ⟨{ Scheme := scheme, Host := h, Path := [], RawQuery := [] }⟩
  | _, _ => none

/-! ## Go maps -/

/-- A Go `map[string]string`. -/
abbrev GoMap := Str → Option Str

/-- Go: `make(map[string]string)`. -/
def GoMap.empty : GoMap := fun _ => none

/-- Go: `m[k] = v`. -/
def GoMap.set (m : GoMap) (k v : Str) : GoMap := fun x => if x = k then some v else m x

/-- The sequence `kvs` is one order in which `for k, v := range m` can visit `m`:
every entry of `m` exactly once. -/
def GoMap.RangeOf (m : GoMap) (kvs : List (Str × Str)) : Prop :=
  (kvs.map Prod.fst).Nodup ∧ ∀ k v, (k, v) ∈ kvs ↔ m k = some v

/-! ## The option model of `request.go` -/

/-- Go: `type file struct { data []byte; name string }`. -/
structure file where
  data : Bytes
  name : Str
deriving DecidableEq, Repr

/-- Go: `type Request struct { body; params; header; file *file }`. -/
structure Request where
  body : Bytes
  params : GoMap
  header : GoMap
  file : Option file

/-- A value of type `interface{}` handed to `WithResponse`, as far as
`encoding/json` distinguishes it: the nil interface, a non-nil pointer to a cell
of caller memory, or anything else (a non-pointer value or a nil pointer). -/
inductive Target where
  | nil
  | ptr (p : Nat)
  | other
deriving DecidableEq, Repr

/-- Go: `type option struct { request *Request; response interface{} }`. -/
structure option where
  request : Request
  response : Target

/-- Go: `type Option func(*option)`.  The type `option` is unexported, so the only
`Option` values a caller can build are the results of the five constructors. -/
inductive Opt where
  | WithBody (body : Bytes)
  | WithHeader (k v : Str)
  | WithParam (k v : Str)
  | WithFile (filename : Str) (data : Bytes)
  | WithResponse (resp : Target)
deriving DecidableEq, Repr

/-- Running an `Option` closure on `o`: the body of the function literal each
constructor returns. -/
def Opt.apply : Opt → option → option
  | .WithBody body, o => { o with request := { o.request with body := body } }
  | .WithHeader k v, o => { o with request := { o.request with header := o.request.header.set k v } }
  | .WithParam k v, o => { o with request := { o.request with params := o.request.params.set k v } }
  | .WithFile filename data, o =>
    { o with request := { o.request with file := some { name := filename, data := data } } }
  | .WithResponse resp, o => { o with response := resp }

/-- Go: `o := &option{request: &Request{params: make(...), header: make(...)}}`. -/
def option.init : option :=
  { request := { body := [], params := GoMap.empty, header := GoMap.empty, file := none },
    response := Target.nil }

/-- Go: `for _, opt := range opts { opt(o) }`. -/
def applyOpts (opts : List Opt) : option := opts.foldl (fun o opt => opt.apply o) option.init

/-! ## `mime/multipart`: the form writer -/

namespace multipart

/-- What one `Write` call of the multipart writer puts on the wire.
* `partHeader b first field filename`: the delimiter line `--b` (after a CRLF unless
  `first`), the headers `Content-Disposition: form-data; name="field";
  filename="filename"` and `Content-Type: application/octet-stream`, and a blank line;
* `data d`: the bytes `d`;
* `closing b`: the final delimiter `--b--`. -/
inductive Chunk where
  | partHeader (boundary : Str) (first : Bool) (fieldname filename : Str)
  | data (d : Bytes)
  | closing (boundary : Str)
deriving DecidableEq, Repr

/-- The `bytes.Buffer` under the writer: what has been written and how many `Write`
calls it has seen. -/
structure Buffer where
  chunks : List Chunk
  writes : Nat
deriving DecidableEq, Repr

/-- One `Write` on the underlying buffer.  `fails n` is the error, if any, of the
`n`-th call; a failed call stores nothing. -/
def Buffer.Write (fails : Nat → Option Error) (b : Buffer) (c : Chunk) : Buffer × Option Error :=
  match fails b.writes with
  | some e => ({ b with writes := b.writes + 1 }, some e)
  | none => ({ chunks := b.chunks ++ [c], writes := b.writes + 1 }, none)

/-- Go: `type part struct { mw *Writer; closed bool; we error }`. -/
structure part where
  closed : Bool
  we : Option Error
deriving DecidableEq, Repr

/-- Go: `type Writer struct { w io.Writer; boundary string; lastpart *part }`. -/
structure Writer where
  w : Buffer
  boundary : Str
  lastpart : Option part
deriving DecidableEq, Repr

/-- Go: `multipart.NewWriter(buffer)` on a fresh buffer, with the random boundary. -/
def NewWriter (boundary : Str) : Writer :=
  { w := { chunks := [], writes := 0 }, boundary := boundary, lastpart := none }

/-- Go: `func (p *part) close() error { p.closed = true; return p.we }`, run on the
writer's last part. -/
def Writer.closeLast (w : Writer) : Writer × Option Error :=
  match w.lastpart with
  | none => (w, none)
  | some p => ({ w with lastpart := some { p with closed := true } }, p.we)

/-- Go: `w.CreateFormFile(fieldname, filename)`, that is `CreatePart` with the two
form-file headers: close the previous part, write the part header, and make the new
part the last one.  The part returned to the caller is `lastpart`. -/
def Writer.CreateFormFile (fails : Nat → Option Error) (w : Writer) (fieldname filename : Str) :
    Writer × Option Error :=
  match w.closeLast with
  | (w1, some e) => (w1, some e)
  | (w1, none) =>
    match w1.w.Write fails (Chunk.partHeader w1.boundary w1.lastpart.isNone fieldname filename) with
    | (b, some e) => ({ w1 with w := b }, some e)
    | (b, none) => ({ w1 with w := b, lastpart := some { closed := false, we := none } }, none)

/-- Go: `func (p *part) Write(d []byte) (n int, err error)` on the part returned by
`CreateFormFile`: refuse a finished part, else write through and remember a failure
in `p.we`. -/
def Writer.partWrite (fails : Nat → Option Error) (w : Writer) (d : Bytes) : Writer × Option Error :=
  match w.lastpart with
  | none => (w, some "multipart: no part")
  | some p =>
    if p.closed then (w, some "multipart: can't write to finished part")
    else
      match w.w.Write fails (Chunk.data d) with
      | (b, some e) => ({ w with w := b, lastpart := some { p with we := some e } }, some e)
      | (b, none) => ({ w with w := b }, none)

/-- Go: `func (w *Writer) Close() error`: close the last part, returning its pending
write error, then write the closing delimiter. -/
def Writer.Close (fails : Nat → Option Error) (w : Writer) : Writer × Option Error :=
  match w.closeLast with
  | (w1, some e) => (w1, some e)
  | (w1, none) =>
    match w1.w.Write fails (Chunk.closing w1.boundary) with
    | (b, e) => ({ w1 with w := b, lastpart := none }, e)

/-- The bytes of `()<>@,;:\"/[]?= `, the characters that force a quoted boundary. -/
def tspecials : List Nat := [40, 41, 60, 62, 64, 44, 59, 58, 92, 34, 47, 91, 93, 63, 61, 32]

/-- Go: `func (w *Writer) FormDataContentType() string`. -/
def Writer.FormDataContentType (w : Writer) : Str :=
  let b := if w.boundary.any (fun c => tspecials.contains c) then [34] ++ w.boundary ++ [34]
    else w.boundary
  ascii "multipart/form-data; boundary=" ++ b

/-- A file field of a form: field name, file name, contents. -/
structure FormFile where
  fieldname : Str
  filename : Str
  data : Bytes
deriving DecidableEq, Repr

/-- The wire layout of a complete multipart form holding exactly the file fields
`fs`, in order. -/
def form (boundary : Str) (fs : List FormFile) : List Chunk :=
  (fs.enum.flatMap fun (i, f) =>
    [Chunk.partHeader boundary (i == 0) f.fieldname f.filename, Chunk.data f.data])
  ++ [Chunk.closing boundary]

end multipart

/-! ## `net/http`: header keys and request objects -/

namespace http

/-- Go: `validHeaderFieldByte`: the token characters of RFC 7230, namely the
letters, the digits and ``!#$%&'*+-.^_`|~``. -/
def validHeaderFieldByte (c : Nat) : Bool :=
  (48 ≤ c && c ≤ 57) || (65 ≤ c && c ≤ 90) || (97 ≤ c && c ≤ 122) ||
    [33, 35, 36, 37, 38, 39, 42, 43, 45, 46, 94, 95, 96, 124, 126].contains c

/-- The rewriting loop of `canonicalMIMEHeaderKey`: upper case at the start and after
each `-`, lower case elsewhere. -/
def canonLoop : Bool → Str → Str
  | _, [] => []
  | upper, c :: s =>
    let c1 := if upper && 97 ≤ c && c ≤ 122 then c - 32
      else if !upper && 65 ≤ c && c ≤ 90 then c + 32 else c
    c1 :: canonLoop (c1 == 45) s

/-- Go: `textproto.CanonicalMIMEHeaderKey(s)`: a key holding a space or another
invalid header byte is returned unchanged; any other key is put in canonical case. -/
def CanonicalMIMEHeaderKey (s : Str) : Str :=
  if s.all validHeaderFieldByte then canonLoop true s else s

/-- Go: `http.Header`, restricted to what `Set` can produce: every key present
holds exactly one value. -/
abbrev Header := GoMap

/-- Go: `func (h Header) Set(key, value string)`, that is
`h[CanonicalMIMEHeaderKey(key)] = []string{value}`. -/
def Header.Set (h : Header) (key value : Str) : Header :=
  GoMap.set h (CanonicalMIMEHeaderKey key) value

/-- The `io.Reader` handed to `http.NewRequest` as the request body. -/
inductive Payload where
  | reader (b : Bytes)
  | buffer (chunks : List multipart.Chunk)
deriving DecidableEq, Repr

/-- The fields of `http.Request` that `request.go` determines. -/
structure Request where
  Method : Str
  URL : Str
  Header : Header
  Body : Payload

/-- Go: `http.NewRequest(method, url, body)`.  `invalid method url` is the error
reported for a bad method token or an unparsable URL; an empty method means `GET`
and the new request has an empty header. -/
def NewRequest (invalid : Str → Str → Option Error) (method url : Str) (body : Payload) :
    Except Error Request :=
  match invalid method url with
  | some e => .error e
  | none =>
    .ok { Method := if method = [] then ascii "GET" else method, URL := url,
          Header := GoMap.empty, Body := body }

end http

/-! ## `net/url`: query values -/

namespace url

/-- Go: `url.Values`, a `map[string][]string`. -/
abbrev Values := Str → Option (List Str)

/-- Go: `func (v Values) Set(key, value string)`, that is `v[key] = []string{value}`. -/
def Values.Set (vs : Values) (key value : Str) : Values :=
  fun x => if x = key then some [value] else vs x

end url

/-! ## The environment of a call -/

/-- Everything a call of `Do` obtains from outside the package.  `V` is the type of
the values held in caller memory. -/
structure Env (V : Type) where
  /-- The boundary drawn by `multipart.NewWriter`. -/
  boundary : Str
  /-- The error, if any, of the `n`-th `Write` on the buffer under the multipart
  writer (a `bytes.Buffer` never reports one: `fun _ => none`). -/
  bufferFails : Nat → Option Error
  /-- The order in which `range o.request.params` visits the map. -/
  rangeParams : GoMap → List (Str × Str)
  /-- The order in which `range o.request.header` visits the map. -/
  rangeHeader : GoMap → List (Str × Str)
  /-- Go: `url.Values.Encode`. -/
  encode : url.Values → Str
  /-- Go: `url.URL.String`. -/
  uriString : URL → Str
  /-- The error `http.NewRequest` reports for a method and URL text, if any. -/
  invalidRequest : Str → Str → Option Error
  /-- Go: `client.Do(req)`: a transport error, or the body of the response. -/
  transport : http.Request → Except Error Bytes
  /-- The error of `json.Decoder` while reading one JSON value off the body. -/
  readValue : Bytes → Option Error
  /-- Unmarshalling a JSON value into the pointee of a non-nil pointer: the error,
  if any, and the pointee afterwards. -/
  unmarshal : Bytes → V → Option Error × V

/-! ## `encoding/json`: decoding into the target -/

namespace json

/-- Go: `json.NewDecoder(body).Decode(v)`: read one value, then unmarshal it; a
target that is nil or not a pointer is rejected with an `InvalidUnmarshalError`
and nothing is stored. -/
def Decode {V : Type} (env : Env V) (body : Bytes) (v : Target) (heap : Nat → V) :
    Option Error × (Nat → V) :=
  match env.readValue body with
  | some e => (some e, heap)
  | none =>
    match v with
    | .ptr p => ((env.unmarshal body (heap p)).1, Function.update heap p (env.unmarshal body (heap p)).2)
    | _ => (some "json: InvalidUnmarshalError", heap)

end json

/-! ## `Do`, `Get`, `Post` -/

/-- The form field name literal `"media"`. -/
def media : Str := [109, 101, 100, 105, 97]

/-- The header key literal `"Content-Type"`. -/
def contentType : Str := [67, 111, 110, 116, 101, 110, 116, 45, 84, 121, 112, 101]

/-- What a call of `Do` leaves behind: the returned error, the request object that
was constructed and handed to `client.Do` (there is no step between the two at which
`Do` can stop), the caller memory, and the receiver. -/
structure DoResult (V : Type) where
  err : Option Error
  sent : Option http.Request
  heap : Nat → V
  r : request

/-- Go: `func (r *request) Do(method string, path string, opts ...Option) error`.
The steps follow the source in order: fold the options, copy the params into
`url.Values`, set path and query on the receiver, build the request in the multipart
or in the raw branch, apply the caller headers, send, decode.  In the multipart
branch the result of `fw.Write` is assigned to `err` and never inspected (the first
component of `partWrite` is kept, the error is dropped), exactly as in the source. -/
def Do {V : Type} (env : Env V) (heap : Nat → V) (r : request) (method path : Str)
    (opts : List Opt) : DoResult V :=
  let o := applyOpts opts
  let params : url.Values :=
    (env.rangeParams o.request.params).foldl (fun ps kv => ps.Set kv.1 kv.2) (fun _ => none)
  let r1 : request := ⟨{ r.uri with Path := path, RawQuery := env.encode params }⟩
  let built : Except Error http.Request :=
    match o.request.file with
    | some f =>
      match (multipart.NewWriter env.boundary).CreateFormFile env.bufferFails media f.name with
      | (_, some e) => .error e
      | (w1, none) =>
        match (w1.partWrite env.bufferFails f.data).1.Close env.bufferFails with
        | (_, some e) => .error e
        | (w3, none) =>
          match http.NewRequest env.invalidRequest method (env.uriString r1.uri)
              (http.Payload.buffer w3.w.chunks) with
          | .error e => .error e
          | .ok req => .ok { req with Header := req.Header.Set contentType w3.FormDataContentType }
    | none =>
      http.NewRequest env.invalidRequest method (env.uriString r1.uri)
        (http.Payload.reader o.request.body)
  match built with
  | .error e => { err := some e, sent := none, heap := heap, r := r1 }
  | .ok req0 =>
    let req := (env.rangeHeader o.request.header).foldl
      (fun q kv => { q with Header := q.Header.Set kv.1 kv.2 }) req0
    match env.transport req with
    | .error e => { err := some e, sent := some req, heap := heap, r := r1 }
    | .ok body =>
      { err := (json.Decode env body o.response heap).1, sent := some req,
        heap := (json.Decode env body o.response heap).2, r := r1 }

/-- Go: `func (r *request) Get(path string, opts ...Option) error`. -/
def Get {V : Type} (env : Env V) (heap : Nat → V) (r : request) (path : Str) (opts : List Opt) :
    DoResult V :=
  Do env heap r (ascii "GET") path opts

/-- Go: `func (r *request) Post(path string, opts ...Option) error`. -/
def Post {V : Type} (env : Env V) (heap : Nat → V) (r : request) (path : Str) (opts : List Opt) :
    DoResult V :=
  Do env heap r (ascii "POST") path opts

/-! ## Reading an option list (specification side) -/

/-- The key and value of a `WithHeader` option. -/
def headerOf : Opt → Option (Str × Str)
  | .WithHeader k v => some (k, v)
  | _ => none

/-- The key and value of a `WithParam` option. -/
def paramOf : Opt → Option (Str × Str)
  | .WithParam k v => some (k, v)
  | _ => none

/-- The attachment of a `WithFile` option. -/
def fileOf : Opt → Option file
  | .WithFile filename data => some { name := filename, data := data }
  | _ => none

/-- The bytes of a `WithBody` option. -/
def bodyOf : Opt → Option Bytes
  | .WithBody body => some body
  | _ => none

/-- The target of a `WithResponse` option. -/
def responseOf : Opt → Option Target
  | .WithResponse resp => some resp
  | _ => none

/-- The value of the last `WithHeader(k, _)` in the list; `none` if there is none. -/
def lastHeader (opts : List Opt) (k : Str) : Option Str :=
  (((opts.filterMap headerOf).filter (fun kv => kv.1 = k)).getLast?).map Prod.snd

/-- The value of the last `WithParam(k, _)` in the list; `none` if there is none. -/
def lastParam (opts : List Opt) (k : Str) : Option Str :=
  (((opts.filterMap paramOf).filter (fun kv => kv.1 = k)).getLast?).map Prod.snd

/-- The attachment of the last `WithFile` in the list; `none` if there is none. -/
def lastFile (opts : List Opt) : Option file := (opts.filterMap fileOf).getLast?

/-- The bytes of the last `WithBody` in the list; `none` if there is none. -/
def lastBody (opts : List Opt) : Option Bytes := (opts.filterMap bodyOf).getLast?

/-- The target of the last `WithResponse` in the list; `none` if there is none. -/
def lastResponse (opts : List Opt) : Option Target := (opts.filterMap responseOf).getLast?

/-- The option with the bytes of a `WithBody` forgotten; every other option is kept. -/
def Opt.forgetBody : Opt → Opt
  | .WithBody _ => .WithBody []
  | x => x

/-! ## Concrete environments and clients, used to instantiate the results -/

/-- An environment in which no step fails: the buffer accepts every write, every
method and URL is accepted, the transport answers with the body `42`, and decoding
stores the length of the body.  The two arguments are the orders in which the params
map and the header map are visited; the query text is left empty, which is what
`Encode` returns for a call without params. -/
def quietEnv (params headers : List (Str × Str)) : Env Nat :=
  { boundary := ascii "0f1e2d",
    bufferFails := fun _ => none,
    rangeParams := fun _ => params,
    rangeHeader := fun _ => headers,
    encode := fun _ => [],
    uriString := fun u =>
      u.Scheme ++ schemeSep ++ u.Host ++ u.Path ++ (if u.RawQuery = [] then [] else 63 :: u.RawQuery),
    invalidRequest := fun _ _ => none,
    transport := fun _ => .ok (ascii "42"),
    readValue := fun _ => none,
    unmarshal := fun body _ => (none, body.length) }

/-- The quiet environment, except that the `n`-th write on the buffer fails. -/
def brokenBuffer (n : Nat) : Env Nat :=
  { quietEnv [] [] with bufferFails := fun i => if i = n then some "write failed" else none }

/-- The quiet environment, except that the transport refuses every request. -/
def brokenTransport : Env Nat :=
  { quietEnv [] [] with transport := fun _ => .error "connection refused" }

/-- The client `New("https://api.example.com")` returns. -/
def exampleClient : request :=
  ⟨{ Scheme := https, Host := ascii "api.example.com", Path := [], RawQuery := [] }⟩

/-! # Properties -/

/-! ## `strings.Split` and `New` -/

namespace strings

theorem Index_eq_none_iff (sep s : Str) : Index sep s = none ↔ ∀ a b, s ≠ a ++ sep ++ b := by
  induction s with
  | nil =>
    by_cases h : sep = []
    · subst h
      simp only [Index, if_true]
      constructor
      · intro h; cases h
      · intro h; exact absurd rfl (h [] [])
    · simp only [Index, if_neg h]
      constructor
      · intro _ a b hab
        have h1 := congrArg List.length hab
        simp only [List.length_nil, List.length_append] at h1
        have : sep.length = 0 := by omega
        exact h (List.length_eq_zero.mp this)
      · intro _; trivial
  | cons c s ih =>
    unfold Index
    by_cases hp : sep.isPrefixOf (c :: s) = true
    · rw [if_pos hp]
      constructor
      · intro h; cases h
      · intro h
        obtain ⟨t, ht⟩ := List.isPrefixOf_iff_prefix.mp hp
        exact absurd (by simpa using ht.symm) (h [] t)
    · rw [if_neg hp]
      rw [Option.map_eq_none', ih]
      constructor
      · intro h a b hab
        cases a with
        | nil =>
          apply hp
          apply List.isPrefixOf_iff_prefix.mpr
          exact ⟨b, by simpa using hab.symm⟩
        | cons x a =>
          simp only [List.cons_append, List.cons.injEq] at hab
          exact h a b hab.2
      · intro h a b hab
        exact h (c :: a) b (by simp [hab])

theorem genSplit_of_Index_none (sep s : Str) (n : Nat) (h : Index sep s = none) :
    genSplit sep n s = [s] := by
  cases n with
  | zero => rfl
  | succ n => simp [genSplit, h]

theorem genSplit_ne_nil (sep : Str) (n : Nat) (s : Str) : genSplit sep n s ≠ [] := by
  cases n with
  | zero => simp [genSplit]
  | succ n =>
    unfold genSplit
    cases Index sep s <;> simp

theorem countLoop_of_Index_none (sep s : Str) (n : Nat) (h : Index sep s = none) :
    countLoop sep n s = 0 := by
  cases n with
  | zero => rfl
  | succ n => simp [countLoop, h]


theorem Index_bound (sep : Str) (s : Str) (i : Nat) (h : Index sep s = some i) :
    i + sep.length ≤ s.length := by
  induction s generalizing i with
  | nil =>
    by_cases hs : sep = []
    · subst hs
      simp [Index] at h
      omega
    · simp [Index, hs] at h
  | cons c s ih =>
    unfold Index at h
    by_cases hp : sep.isPrefixOf (c :: s) = true
    · rw [if_pos hp] at h
      have hl := (List.isPrefixOf_iff_prefix.mp hp).length_le
      cases h
      omega
    · rw [if_neg hp] at h
      obtain ⟨j, hj, hji⟩ := Option.map_eq_some'.mp h
      have := ih j hj
      simp only [List.length_cons]
      omega

theorem Index_nil_of_ne_nil (sep : Str) (hsep : sep ≠ []) : Index sep [] = none := by
  simp [Index, hsep]

/-- The bound of `countLoop` is never reached: any fuel of at least `len(s)` gives the
same count. -/
theorem countLoop_fuel (sep : Str) (hsep : sep ≠ []) (n m : Nat) (s : Str)
    (hn : s.length ≤ n) (hm : s.length ≤ m) : countLoop sep n s = countLoop sep m s := by
  have hpos : 0 < sep.length := List.length_pos.mpr hsep
  induction n generalizing m s with
  | zero =>
    have hs : s = [] := List.length_eq_zero.mp (Nat.le_zero.mp hn)
    subst hs
    rw [countLoop_of_Index_none _ _ _ (Index_nil_of_ne_nil sep hsep),
      countLoop_of_Index_none _ _ _ (Index_nil_of_ne_nil sep hsep)]
  | succ n ih =>
    cases m with
    | zero =>
      have hs : s = [] := List.length_eq_zero.mp (Nat.le_zero.mp hm)
      subst hs
      rw [countLoop_of_Index_none _ _ _ (Index_nil_of_ne_nil sep hsep),
        countLoop_of_Index_none _ _ _ (Index_nil_of_ne_nil sep hsep)]
    | succ m =>
      cases hi : Index sep s with
      | none => simp [countLoop, hi]
      | some i =>
        have hb := Index_bound sep s i hi
        have hl : (s.drop (i + sep.length)).length ≤ n := by
          rw [List.length_drop]; omega
        have hl2 : (s.drop (i + sep.length)).length ≤ m := by
          rw [List.length_drop]; omega
        simp only [countLoop, hi]
        rw [ih m _ hl hl2]

theorem genSplit_fuel_aux (sep : Str) (hsep : sep ≠ []) (f n : Nat) (s : Str)
    (hf : s.length ≤ f) (hn : countLoop sep f s ≤ n) :
    genSplit sep n s = genSplit sep (countLoop sep f s) s := by
  have hpos : 0 < sep.length := List.length_pos.mpr hsep
  induction f generalizing n s with
  | zero =>
    have hs : s = [] := List.length_eq_zero.mp (Nat.le_zero.mp hf)
    subst hs
    rw [genSplit_of_Index_none _ _ _ (Index_nil_of_ne_nil sep hsep),
      genSplit_of_Index_none _ _ _ (Index_nil_of_ne_nil sep hsep)]
  | succ f ih =>
    cases hi : Index sep s with
    | none =>
      rw [genSplit_of_Index_none _ _ _ hi, genSplit_of_Index_none _ _ _ hi]
    | some i =>
      have hb := Index_bound sep s i hi
      have hl : (s.drop (i + sep.length)).length ≤ f := by
        rw [List.length_drop]; omega
      simp only [countLoop, hi] at hn ⊢
      cases n with
      | zero => omega
      | succ n =>
        simp only [genSplit, hi]
        rw [ih n _ hl (by omega)]

/-- The slot count of `Split` never stops the loop of `genSplit` early: with any
larger bound the loop yields the same components. -/
theorem Split_fuel (sep : Str) (hsep : sep ≠ []) (s : Str) (n : Nat) (hn : Count s sep ≤ n) :
    genSplit sep n s = Split s sep :=
  genSplit_fuel_aux sep hsep s.length n s (Nat.le_refl _) hn

end strings

theorem Index_schemeSep_append (scheme host : Str)
    (hs : ∀ a b, scheme ≠ a ++ schemeSep ++ b) :
    strings.Index schemeSep (scheme ++ schemeSep ++ host) = some scheme.length := by
  induction scheme with
  | nil => simp [schemeSep, strings.Index, List.isPrefixOf]
  | cons c t ih =>
    have ht : ∀ a b, t ≠ a ++ schemeSep ++ b := by
      intro a b hab
      exact hs (c :: a) b (by simp [hab])
    have hp : schemeSep.isPrefixOf (c :: t ++ schemeSep ++ host) = false := by
      rcases t with _ | ⟨d, _ | ⟨e, t⟩⟩
      · simp [schemeSep, List.isPrefixOf]
      · simp [schemeSep, List.isPrefixOf]
      · by_contra hcon
        have hcon : schemeSep.isPrefixOf (c :: d :: e :: t ++ schemeSep ++ host) = true := by
          simpa using hcon
        simp only [schemeSep, List.cons_append, List.isPrefixOf, Bool.and_eq_true,
          beq_iff_eq, Bool.and_true] at hcon
        obtain ⟨h1, h2, h3⟩ := hcon
        subst h1 h2 h3
        exact hs [] t (by simp [schemeSep])
    have ih2 := ih ht
    simp only [List.cons_append, List.append_assoc] at hp ih2 ⊢
    simp [strings.Index, hp, ih2]

theorem Split_scheme_host (scheme host : Str)
    (hs : ∀ a b, scheme ≠ a ++ schemeSep ++ b) (hh : ∀ a b, host ≠ a ++ schemeSep ++ b) :
    strings.Split (scheme ++ schemeSep ++ host) schemeSep = [scheme, host] := by
  have hi := Index_schemeSep_append scheme host hs
  have hn : strings.Index schemeSep host = none := (strings.Index_eq_none_iff _ _).mpr hh
  have hd : List.drop (scheme.length + schemeSep.length) (scheme ++ schemeSep ++ host) = host := by
    have : scheme.length + schemeSep.length = (scheme ++ schemeSep).length := by simp
    rw [this, List.drop_left]
  have hc : strings.Count (scheme ++ schemeSep ++ host) schemeSep = 1 := by
    have hl : (scheme ++ schemeSep ++ host).length
        = (scheme.length + 2 + host.length) + 1 := by
      simp [schemeSep]; omega
    unfold strings.Count
    rw [hl]
    simp only [strings.countLoop, hi, hd]
    rw [strings.countLoop_of_Index_none _ _ _ hn]
  unfold strings.Split
  rw [hc]
  simp only [strings.genSplit, hi, hd]
  simp [List.append_assoc, List.take_left]

/-- C3 (as stated, refuted): for scheme `a` and host `b://c` the input is `a://b://c`;
`New` keeps the first split component as scheme and the last one as host, so the
host is `c`, not `b://c`. -/
theorem C3_New_host_with_separator :
    New (ascii "a" ++ schemeSep ++ ascii "b://c")
        = some ⟨⟨ascii "a", ascii "c", [], []⟩⟩
      ∧ New (ascii "a" ++ schemeSep ++ ascii "b://c")
        ≠ some ⟨⟨ascii "a", ascii "b://c", [], []⟩⟩ := by
  decide

/-- C3 (amended): for all strings `scheme` and `host` neither of which contains the
separator `://`, `New (scheme ++ "://" ++ host)` returns a client whose endpoint
scheme is `scheme` and whose endpoint host is `host`. -/
theorem C3_New_scheme_host (scheme host : Str)
    (hs : ∀ a b, scheme ≠ a ++ schemeSep ++ b) (hh : ∀ a b, host ≠ a ++ schemeSep ++ b) :
    New (scheme ++ schemeSep ++ host)
      = some ⟨{ Scheme := scheme, Host := host, Path := [], RawQuery := [] }⟩ := by
  unfold New
  rw [Split_scheme_host scheme host hs hh]
  rfl

/-- C3 (amended), instance: `New("http://api.example.com")`. -/
theorem C3_New_scheme_host_witness :
    New (ascii "http" ++ schemeSep ++ ascii "api.example.com")
      = some ⟨{ Scheme := ascii "http", Host := ascii "api.example.com",
                Path := [], RawQuery := [] }⟩ :=
  C3_New_scheme_host (ascii "http") (ascii "api.example.com")
    ((strings.Index_eq_none_iff schemeSep (ascii "http")).mp (by decide))
    ((strings.Index_eq_none_iff schemeSep (ascii "api.example.com")).mp (by decide))

/-- C4: `New` never fails, and for every input that does not contain the separator
`://` (the empty string included) it returns a client whose endpoint scheme is
`https` and whose endpoint host is the input unchanged. -/
theorem C4_New_default_scheme (host : Str) :
    (∃ r, New host = some r) ∧
      ((∀ a b, host ≠ a ++ schemeSep ++ b) →
        New host = some ⟨{ Scheme := https, Host := host, Path := [], RawQuery := [] }⟩) := by
  constructor
  · unfold New
    have hne := strings.genSplit_ne_nil schemeSep (strings.Count host schemeSep) host
    unfold strings.Split
    rcases hu : strings.genSplit schemeSep (strings.Count host schemeSep) host with _ | ⟨x, u⟩
    · exact absurd hu hne
    · by_cases hlen : (x :: u).length > 1
      · have h1 : (x :: u).length - 1 < (x :: u).length := by
          simp only [List.length_cons]; omega
        simp only [hlen, if_true, List.getElem?_cons_zero, List.getElem?_eq_getElem h1]
        exact ⟨_, rfl⟩
      · have h1 : (x :: u).length - 1 < (x :: u).length := by
          simp only [List.length_cons]; omega
        simp only [hlen, if_false, List.getElem?_eq_getElem h1]
        exact ⟨_, rfl⟩
  · intro h
    have hn : strings.Index schemeSep host = none := (strings.Index_eq_none_iff _ _).mpr h
    unfold New strings.Split
    rw [strings.genSplit_of_Index_none _ _ _ hn]
    rfl

/-- C4, instance: `New("example.com")`. -/
theorem C4_New_default_scheme_witness :
    (∃ r, New (ascii "example.com") = some r) ∧
      New (ascii "example.com")
        = some ⟨{ Scheme := https, Host := ascii "example.com", Path := [], RawQuery := [] }⟩ :=
  ⟨(C4_New_default_scheme (ascii "example.com")).1,
   (C4_New_default_scheme (ascii "example.com")).2
     ((strings.Index_eq_none_iff schemeSep (ascii "example.com")).mp (by decide))⟩

/-! ## Folding the options -/

theorem applyOpts_nil : applyOpts [] = option.init := rfl

theorem applyOpts_concat (opts : List Opt) (x : Opt) :
    applyOpts (opts ++ [x]) = x.apply (applyOpts opts) := by
  simp [applyOpts, List.foldl_append]

theorem lastHeader_concat (opts : List Opt) (x : Opt) (k : Str) :
    lastHeader (opts ++ [x]) k =
      match headerOf x with
      | some kv => if kv.1 = k then some kv.2 else lastHeader opts k
      | none => lastHeader opts k := by
  unfold lastHeader
  rw [List.filterMap_append]
  cases hx : headerOf x with
  | none => simp [List.filterMap, hx]
  | some kv =>
    by_cases hk : kv.1 = k
    · simp [List.filterMap, hx, hk, List.filter_cons]
    · simp [List.filterMap, hx, hk, List.filter_cons]

theorem lastParam_concat (opts : List Opt) (x : Opt) (k : Str) :
    lastParam (opts ++ [x]) k =
      match paramOf x with
      | some kv => if kv.1 = k then some kv.2 else lastParam opts k
      | none => lastParam opts k := by
  unfold lastParam
  rw [List.filterMap_append]
  cases hx : paramOf x with
  | none => simp [List.filterMap, hx]
  | some kv =>
    by_cases hk : kv.1 = k
    · simp [List.filterMap, hx, hk, List.filter_cons]
    · simp [List.filterMap, hx, hk, List.filter_cons]

theorem applyOpts_header (opts : List Opt) (k : Str) :
    (applyOpts opts).request.header k = lastHeader opts k := by
  induction opts using List.reverseRecOn with
  | nil => rfl
  | append_singleton l x ih =>
    rw [applyOpts_concat, lastHeader_concat]
    cases x with
    | WithHeader k1 v =>
      simp only [Opt.apply, headerOf, GoMap.set]
      by_cases hk : k = k1
      · subst hk; simp
      · have hk2 : ¬ k1 = k := fun h => hk h.symm
        simp [hk, hk2, ih]
    | WithBody b => simpa [Opt.apply, headerOf] using ih
    | WithParam k1 v => simpa [Opt.apply, headerOf] using ih
    | WithFile n d => simpa [Opt.apply, headerOf] using ih
    | WithResponse t => simpa [Opt.apply, headerOf] using ih

theorem applyOpts_params (opts : List Opt) (k : Str) :
    (applyOpts opts).request.params k = lastParam opts k := by
  induction opts using List.reverseRecOn with
  | nil => rfl
  | append_singleton l x ih =>
    rw [applyOpts_concat, lastParam_concat]
    cases x with
    | WithParam k1 v =>
      simp only [Opt.apply, paramOf, GoMap.set]
      by_cases hk : k = k1
      · subst hk; simp
      · have hk2 : ¬ k1 = k := fun h => hk h.symm
        simp [hk, hk2, ih]
    | WithBody b => simpa [Opt.apply, paramOf] using ih
    | WithHeader k1 v => simpa [Opt.apply, paramOf] using ih
    | WithFile n d => simpa [Opt.apply, paramOf] using ih
    | WithResponse t => simpa [Opt.apply, paramOf] using ih

/-- C5: after the options are folded in the order supplied, the header mapping holds
at every key `k` the value of the last `WithHeader(k, _)` of the list (and nothing if
there is none), and the params mapping holds at `k` the value of the last
`WithParam(k, _)`: later options on the same key overwrite earlier ones. -/
theorem C5_last_write_wins (opts : List Opt) (k : Str) :
    (applyOpts opts).request.header k = lastHeader opts k ∧
      (applyOpts opts).request.params k = lastParam opts k :=
  ⟨applyOpts_header opts k, applyOpts_params opts k⟩

/-! ## Reordering options with pairwise distinct keys -/

theorem length_le_one_of_nodup_of_const {α : Type} (l : List α) (a : α)
    (hn : l.Nodup) (hc : ∀ x ∈ l, x = a) : l.length ≤ 1 := by
  rcases l with _ | ⟨x, _ | ⟨y, t⟩⟩
  · simp
  · simp
  · exfalso
    have hx : x = a := hc x (by simp)
    have hy : y = a := hc y (by simp)
    rw [List.nodup_cons] at hn
    exact hn.1 (by simp [hx, hy])

theorem eq_of_perm_of_length_le_one {α : Type} (l1 l2 : List α)
    (hp : l1.Perm l2) (hl : l1.length ≤ 1) : l1 = l2 := by
  rcases l1 with _ | ⟨x, _ | ⟨y, t⟩⟩
  · exact (List.nil_perm.mp hp).symm
  · exact List.singleton_perm.mp hp
  · simp at hl

theorem filter_key_perm_eq (h1 h2 : List (Str × Str)) (k : Str)
    (hp : h1.Perm h2) (hn : (h1.map Prod.fst).Nodup) :
    h1.filter (fun kv => kv.1 = k) = h2.filter (fun kv => kv.1 = k) := by
  apply eq_of_perm_of_length_le_one _ _ (hp.filter _)
  have hsub : ((h1.filter (fun kv => kv.1 = k)).map Prod.fst).Sublist (h1.map Prod.fst) :=
    (List.filter_sublist h1).map Prod.fst
  have hlen := length_le_one_of_nodup_of_const _ k (hn.sublist hsub) (by
    intro x hx
    obtain ⟨kv, hkv, rfl⟩ := List.mem_map.mp hx
    simpa using (List.mem_filter.mp hkv).2)
  simpa using hlen

/-- C6: if two option lists are permutations of one another and no two `WithHeader`
options share a key and no two `WithParam` options share a key, then folding either
list from the empty configuration gives the same header mapping and the same params
mapping. -/
theorem C6_disjoint_keys_commute (l1 l2 : List Opt) (hp : l1.Perm l2)
    (hh : ((l1.filterMap headerOf).map Prod.fst).Nodup)
    (hq : ((l1.filterMap paramOf).map Prod.fst).Nodup) :
    (applyOpts l1).request.header = (applyOpts l2).request.header ∧
      (applyOpts l1).request.params = (applyOpts l2).request.params := by
  constructor
  · funext k
    rw [applyOpts_header, applyOpts_header]
    unfold lastHeader
    rw [filter_key_perm_eq _ _ k (hp.filterMap headerOf) hh]
  · funext k
    rw [applyOpts_params, applyOpts_params]
    unfold lastParam
    rw [filter_key_perm_eq _ _ k (hp.filterMap paramOf) hq]

/-- C6, instance: three options with distinct keys in two orders. -/
theorem C6_disjoint_keys_commute_witness :
    (applyOpts [Opt.WithHeader (ascii "A") (ascii "1"), Opt.WithParam (ascii "p") (ascii "2"),
        Opt.WithHeader (ascii "B") (ascii "3")]).request.header
      = (applyOpts [Opt.WithHeader (ascii "B") (ascii "3"),
        Opt.WithHeader (ascii "A") (ascii "1"),
        Opt.WithParam (ascii "p") (ascii "2")]).request.header ∧
    (applyOpts [Opt.WithHeader (ascii "A") (ascii "1"), Opt.WithParam (ascii "p") (ascii "2"),
        Opt.WithHeader (ascii "B") (ascii "3")]).request.params
      = (applyOpts [Opt.WithHeader (ascii "B") (ascii "3"),
        Opt.WithHeader (ascii "A") (ascii "1"),
        Opt.WithParam (ascii "p") (ascii "2")]).request.params :=
  C6_disjoint_keys_commute _ _ (by decide) (by decide) (by decide)

/-! ## What the fold leaves in the other fields -/

theorem applyOpts_file (opts : List Opt) : (applyOpts opts).request.file = lastFile opts := by
  induction opts using List.reverseRecOn with
  | nil => rfl
  | append_singleton l x ih =>
    rw [applyOpts_concat]
    unfold lastFile at ih ⊢
    rw [List.filterMap_append]
    cases x <;> simp [Opt.apply, fileOf, List.filterMap, ih]

theorem applyOpts_body (opts : List Opt) :
    (applyOpts opts).request.body = (lastBody opts).getD [] := by
  induction opts using List.reverseRecOn with
  | nil => rfl
  | append_singleton l x ih =>
    rw [applyOpts_concat]
    unfold lastBody at ih ⊢
    rw [List.filterMap_append]
    cases x <;> simp [Opt.apply, bodyOf, List.filterMap, ih]

theorem applyOpts_response (opts : List Opt) :
    (applyOpts opts).response = (lastResponse opts).getD Target.nil := by
  induction opts using List.reverseRecOn with
  | nil => rfl
  | append_singleton l x ih =>
    rw [applyOpts_concat]
    unfold lastResponse at ih ⊢
    rw [List.filterMap_append]
    cases x <;> simp [Opt.apply, responseOf, List.filterMap, ih]

theorem lastFile_eq_none (opts : List Opt) (h : ∀ filename data, Opt.WithFile filename data ∉ opts) :
    lastFile opts = none := by
  unfold lastFile
  rw [List.getLast?_eq_none_iff, List.filterMap_eq_nil_iff]
  intro x hx
  cases x with
  | WithFile n d => exact absurd hx (h n d)
  | _ => rfl

theorem lastResponse_eq_none (opts : List Opt) (h : ∀ t, Opt.WithResponse t ∉ opts) :
    lastResponse opts = none := by
  unfold lastResponse
  rw [List.getLast?_eq_none_iff, List.filterMap_eq_nil_iff]
  intro x hx
  cases x with
  | WithResponse t => exact absurd hx (h t)
  | _ => rfl

theorem lastResponse_mem (opts : List Opt) (t : Target) (h : lastResponse opts = some t) :
    Opt.WithResponse t ∈ opts := by
  unfold lastResponse at h
  have hm := List.mem_of_getLast?_eq_some h
  obtain ⟨x, hx, hxt⟩ := List.mem_filterMap.mp hm
  cases x <;> simp [responseOf] at hxt
  subst hxt
  exact hx

/-! ## The header loop -/

theorem setHeaders_body (kvs : List (Str × Str)) (req : http.Request) :
    (kvs.foldl (fun q kv => { q with Header := q.Header.Set kv.1 kv.2 }) req).Body = req.Body := by
  induction kvs generalizing req with
  | nil => rfl
  | cons kv t ih => rw [List.foldl_cons, ih]

theorem setHeaders_other (kvs : List (Str × Str)) (req : http.Request) (c : Str)
    (h : ∀ kv ∈ kvs, http.CanonicalMIMEHeaderKey kv.1 ≠ c) :
    (kvs.foldl (fun q kv => { q with Header := q.Header.Set kv.1 kv.2 }) req).Header c
      = req.Header c := by
  induction kvs generalizing req with
  | nil => rfl
  | cons kv t ih =>
    rw [List.foldl_cons, ih _ (fun x hx => h x (List.mem_cons_of_mem _ hx))]
    have hkv := h kv (List.mem_cons_self _ _)
    simp only [http.Header.Set, GoMap.set]
    rw [if_neg (fun hc => hkv hc.symm)]

theorem setHeaders_unique (kvs : List (Str × Str)) (req : http.Request) (c k v : Str)
    (hmem : (k, v) ∈ kvs) (hk : http.CanonicalMIMEHeaderKey k = c)
    (huniq : ∀ kv ∈ kvs, http.CanonicalMIMEHeaderKey kv.1 = c → kv = (k, v)) :
    (kvs.foldl (fun q kv => { q with Header := q.Header.Set kv.1 kv.2 }) req).Header c
      = some v := by
  induction kvs generalizing req with
  | nil => cases hmem
  | cons kv t ih =>
    rw [List.foldl_cons]
    by_cases ht : (k, v) ∈ t
    · exact ih _ ht (fun x hx => huniq x (List.mem_cons_of_mem _ hx))
    · have hkv : kv = (k, v) := by
        rcases List.mem_cons.mp hmem with h | h
        · exact h.symm
        · exact absurd h ht
      have hothers : ∀ x ∈ t, http.CanonicalMIMEHeaderKey x.1 ≠ c := by
        intro x hx hc
        have := huniq x (List.mem_cons_of_mem _ hx) hc
        exact ht (this ▸ hx)
      rw [setHeaders_other _ _ _ hothers]
      subst hkv
      simp [http.Header.Set, GoMap.set, hk]

/-! ## The shape of a call of `Do` -/

theorem Do_congr {V : Type} (env : Env V) (heap : Nat → V) (r : request) (method path : Str)
    (a b : List Opt)
    (hp : (applyOpts a).request.params = (applyOpts b).request.params)
    (hh : (applyOpts a).request.header = (applyOpts b).request.header)
    (hf : (applyOpts a).request.file = (applyOpts b).request.file)
    (hr : (applyOpts a).response = (applyOpts b).response)
    (hb : (applyOpts a).request.file = none →
      (applyOpts a).request.body = (applyOpts b).request.body) :
    Do env heap r method path a = Do env heap r method path b := by
  unfold Do
  generalize applyOpts a = oa at *
  generalize applyOpts b = ob at *
  obtain ⟨⟨ba, pa, ha, fa⟩, ra⟩ := oa
  obtain ⟨⟨bb, pb, hb', fb⟩, rb⟩ := ob
  simp only at hp hh hf hr hb
  subst hp hh hf hr
  cases fa with
  | none => have := hb rfl; subst this; rfl
  | some f => rfl

theorem Do_sent_file {V : Type} (env : Env V) (heap : Nat → V) (r : request) (method path : Str)
    (opts : List Opt) (f : file) (hf : (applyOpts opts).request.file = some f)
    (req : http.Request) (hs : (Do env heap r method path opts).sent = some req) :
    ∃ req0 : http.Request,
      req = (env.rangeHeader (applyOpts opts).request.header).foldl
          (fun q kv => { q with Header := q.Header.Set kv.1 kv.2 }) req0 ∧
      req0.Body = http.Payload.buffer (multipart.form env.boundary [⟨media, f.name, f.data⟩]) ∧
      req0.Header = http.Header.Set GoMap.empty contentType
          (multipart.NewWriter env.boundary).FormDataContentType := by
  unfold Do at hs
  simp only [hf, http.NewRequest] at hs
  generalize env.uriString _ = url at hs
  generalize env.invalidRequest method url = inv at hs
  generalize env.rangeHeader _ = kvs at hs ⊢
  cases h0 : env.bufferFails 0 <;> cases h1 : env.bufferFails 1 <;>
    cases h2 : env.bufferFails 2 <;> cases inv <;>
    simp [multipart.NewWriter, multipart.Writer.CreateFormFile, multipart.Writer.closeLast,
      multipart.Buffer.Write, multipart.Writer.partWrite, multipart.Writer.Close,
      h0, h1, h2] at hs
  split at hs <;>
  · simp only [Option.some.injEq] at hs
    subst hs
    exact ⟨_, rfl, rfl, rfl⟩

theorem Do_r {V : Type} (env : Env V) (heap : Nat → V) (r : request)
    (method path : Str) (opts : List Opt) :
    (Do env heap r method path opts).r =
      ⟨{ r.uri with
          Path := path,
          RawQuery := env.encode
            ((env.rangeParams (applyOpts opts).request.params).foldl
              (fun ps kv => ps.Set kv.1 kv.2) (fun _ => none)) }⟩ := by
  unfold Do
  simp only
  split
  · rfl
  · split <;> rfl

theorem Do_sent_file_exists {V : Type} (env : Env V) (heap : Nat → V) (r : request)
    (method path : Str) (opts : List Opt) (f : file)
    (hf : (applyOpts opts).request.file = some f)
    (hbuf : ∀ n, env.bufferFails n = none)
    (hreq : env.invalidRequest method
      (env.uriString (Do env heap r method path opts).r.uri) = none) :
    ∃ req, (Do env heap r method path opts).sent = some req := by
  rw [Do_r] at hreq
  unfold Do
  simp only [hf, http.NewRequest]
  generalize env.uriString _ = url at hreq ⊢
  generalize env.rangeHeader _ = kvs
  simp [multipart.NewWriter, multipart.Writer.CreateFormFile, multipart.Writer.closeLast,
      multipart.Buffer.Write, multipart.Writer.partWrite, multipart.Writer.Close, hbuf, hreq]
  split <;> simp

theorem Do_sent_nofile {V : Type} (env : Env V) (heap : Nat → V) (r : request)
    (method path : Str) (opts : List Opt) (hf : (applyOpts opts).request.file = none)
    (req : http.Request) (hs : (Do env heap r method path opts).sent = some req) :
    ∃ req0 : http.Request,
      req = (env.rangeHeader (applyOpts opts).request.header).foldl
          (fun q kv => { q with Header := q.Header.Set kv.1 kv.2 }) req0 ∧
      req0.Body = http.Payload.reader (applyOpts opts).request.body ∧
      req0.Header = GoMap.empty := by
  unfold Do at hs
  simp only [hf, http.NewRequest] at hs
  generalize env.uriString _ = url at hs
  generalize env.invalidRequest method url = inv at hs
  generalize env.rangeHeader _ = kvs at hs ⊢
  cases inv <;> simp at hs
  split at hs <;>
  · simp only [Option.some.injEq] at hs
    subst hs
    exact ⟨_, rfl, rfl, rfl⟩

theorem Do_sent_nofile_exists {V : Type} (env : Env V) (heap : Nat → V) (r : request)
    (method path : Str) (opts : List Opt)
    (hf : (applyOpts opts).request.file = none)
    (hreq : env.invalidRequest method
      (env.uriString (Do env heap r method path opts).r.uri) = none) :
    ∃ req, (Do env heap r method path opts).sent = some req := by
  rw [Do_r] at hreq
  unfold Do
  simp only [hf, http.NewRequest]
  generalize env.uriString _ = url at hreq ⊢
  generalize env.rangeHeader _ = kvs
  simp [hreq]
  split <;> simp

/-! ## Encoding branch: file against body -/

theorem fileOf_forgetBody (x : Opt) : fileOf x.forgetBody = fileOf x := by cases x <;> rfl
theorem headerOf_forgetBody (x : Opt) : headerOf x.forgetBody = headerOf x := by cases x <;> rfl
theorem paramOf_forgetBody (x : Opt) : paramOf x.forgetBody = paramOf x := by cases x <;> rfl
theorem responseOf_forgetBody (x : Opt) : responseOf x.forgetBody = responseOf x := by
  cases x <;> rfl

theorem filterMap_forgetBody {α : Type} (g : Opt → Option α)
    (hg : ∀ x : Opt, g x.forgetBody = g x) (opts : List Opt) :
    (opts.map Opt.forgetBody).filterMap g = opts.filterMap g := by
  induction opts with
  | nil => rfl
  | cons x t ih => simp [List.filterMap_cons, hg, ih]

theorem Do_forgetBody {V : Type} (env : Env V) (heap : Nat → V) (r : request)
    (method path : Str) (a b : List Opt) (f : file) (hf : lastFile a = some f)
    (hab : b.map Opt.forgetBody = a.map Opt.forgetBody) :
    Do env heap r method path b = Do env heap r method path a := by
  have hfile : lastFile b = lastFile a := by
    unfold lastFile
    rw [← filterMap_forgetBody fileOf fileOf_forgetBody a,
      ← filterMap_forgetBody fileOf fileOf_forgetBody b, hab]
  have hhdr : ∀ k, lastHeader b k = lastHeader a k := by
    intro k
    unfold lastHeader
    rw [← filterMap_forgetBody headerOf headerOf_forgetBody a,
      ← filterMap_forgetBody headerOf headerOf_forgetBody b, hab]
  have hpar : ∀ k, lastParam b k = lastParam a k := by
    intro k
    unfold lastParam
    rw [← filterMap_forgetBody paramOf paramOf_forgetBody a,
      ← filterMap_forgetBody paramOf paramOf_forgetBody b, hab]
  have hres : lastResponse b = lastResponse a := by
    unfold lastResponse
    rw [← filterMap_forgetBody responseOf responseOf_forgetBody a,
      ← filterMap_forgetBody responseOf responseOf_forgetBody b, hab]
  apply Do_congr
  · funext k; rw [applyOpts_params, applyOpts_params, hpar]
  · funext k; rw [applyOpts_header, applyOpts_header, hhdr]
  · rw [applyOpts_file, applyOpts_file, hfile]
  · rw [applyOpts_response, applyOpts_response, hres]
  · intro hnone
    rw [applyOpts_file, hfile, hf] at hnone
    cases hnone

/-- C1: if the option list contains a `WithFile` (the last one carrying `f`), then
wherever `WithBody` options stand in the list `Do` takes the multipart branch: the
payload of the request it sends is a multipart form with exactly one file field,
named `media`, with the file name and bytes of `f`; a request is sent whenever the
buffer and `http.NewRequest` report no error; and replacing the bytes carried by the
`WithBody` options changes nothing in the outcome, the payload included. -/
theorem C1_file_forces_multipart {V : Type} (env : Env V) (heap : Nat → V) (r : request)
    (method path : Str) (opts : List Opt) (f : file) (hfile : lastFile opts = some f) :
    (∀ req, (Do env heap r method path opts).sent = some req →
        req.Body = http.Payload.buffer
          (multipart.form env.boundary [⟨media, f.name, f.data⟩])) ∧
    ((∀ n, env.bufferFails n = none) →
      env.invalidRequest method
          (env.uriString (Do env heap r method path opts).r.uri) = none →
        ∃ req, (Do env heap r method path opts).sent = some req) ∧
    (∀ opts2 : List Opt, opts2.map Opt.forgetBody = opts.map Opt.forgetBody →
        Do env heap r method path opts2 = Do env heap r method path opts) := by
  have hf : (applyOpts opts).request.file = some f := by rw [applyOpts_file, hfile]
  refine ⟨?_, ?_, ?_⟩
  · intro req hs
    obtain ⟨req0, hreq, hbody, _⟩ := Do_sent_file env heap r method path opts f hf req hs
    rw [hreq, setHeaders_body, hbody]
  · intro hbuf hinv
    exact Do_sent_file_exists env heap r method path opts f hf hbuf hinv
  · intro opts2 h2
    exact Do_forgetBody env heap r method path opts opts2 f hfile h2

/-- C1, instance: `WithBody`, `WithFile("x.png", 01 02 03)`, `WithBody` in a quiet
environment; the payload is the one-field form and other body bytes change nothing. -/
theorem C1_file_forces_multipart_witness :
    (∃ req, (Do (quietEnv [] []) (fun _ => 0) exampleClient (ascii "POST") (ascii "/upload")
          [Opt.WithBody [9, 9], Opt.WithFile (ascii "x.png") [1, 2, 3], Opt.WithBody [7]]).sent
          = some req ∧
        req.Body = http.Payload.buffer (multipart.form (quietEnv [] []).boundary
          [⟨media, ascii "x.png", [1, 2, 3]⟩])) ∧
    Do (quietEnv [] []) (fun _ => 0) exampleClient (ascii "POST") (ascii "/upload")
        [Opt.WithBody [], Opt.WithFile (ascii "x.png") [1, 2, 3], Opt.WithBody [4, 5]]
      = Do (quietEnv [] []) (fun _ => 0) exampleClient (ascii "POST") (ascii "/upload")
        [Opt.WithBody [9, 9], Opt.WithFile (ascii "x.png") [1, 2, 3], Opt.WithBody [7]] :=
  have h := C1_file_forces_multipart (quietEnv [] []) (fun _ => 0) exampleClient (ascii "POST")
    (ascii "/upload") [Opt.WithBody [9, 9], Opt.WithFile (ascii "x.png") [1, 2, 3], Opt.WithBody [7]]
    { name := ascii "x.png", data := [1, 2, 3] } (by decide)
  ⟨(h.2.1 (fun _ => rfl) rfl).elim (fun req hreq => ⟨req, hreq, h.1 req hreq⟩),
    h.2.2 _ (by decide)⟩

theorem lastBody_eq_none (opts : List Opt) (h : ∀ body, Opt.WithBody body ∉ opts) :
    lastBody opts = none := by
  unfold lastBody
  rw [List.getLast?_eq_none_iff, List.filterMap_eq_nil_iff]
  intro x hx
  cases x with
  | WithBody b => exact absurd hx (h b)
  | _ => rfl

/-- C2: if the option list contains no `WithFile`, the payload of the request `Do`
sends is exactly the bytes of the last `WithBody` in the list, and the empty byte
sequence when the list contains no `WithBody`; a request is sent whenever
`http.NewRequest` reports no error. -/
theorem C2_body_verbatim {V : Type} (env : Env V) (heap : Nat → V) (r : request)
    (method path : Str) (opts : List Opt)
    (hnofile : ∀ filename data, Opt.WithFile filename data ∉ opts) :
    (∀ req, (Do env heap r method path opts).sent = some req →
        req.Body = http.Payload.reader ((lastBody opts).getD []) ∧
        ((∀ body, Opt.WithBody body ∉ opts) → req.Body = http.Payload.reader [])) ∧
    (env.invalidRequest method
          (env.uriString (Do env heap r method path opts).r.uri) = none →
        ∃ req, (Do env heap r method path opts).sent = some req) := by
  have hf : (applyOpts opts).request.file = none := by
    rw [applyOpts_file, lastFile_eq_none opts hnofile]
  refine ⟨?_, ?_⟩
  · intro req hs
    obtain ⟨req0, hreq, hbody, _⟩ := Do_sent_nofile env heap r method path opts hf req hs
    have hb : req.Body = http.Payload.reader ((lastBody opts).getD []) := by
      rw [hreq, setHeaders_body, hbody, applyOpts_body]
    refine ⟨hb, ?_⟩
    intro hnobody
    rw [hb, lastBody_eq_none opts hnobody]
    rfl
  · intro hinv
    exact Do_sent_nofile_exists env heap r method path opts hf hinv

/-- C2, instance: two `WithBody` options and no `WithFile`; the payload is the bytes of
the second one. -/
theorem C2_body_verbatim_witness :
    ∃ req, (Do (quietEnv [] []) (fun _ => 0) exampleClient (ascii "POST") (ascii "/echo")
          [Opt.WithBody [1], Opt.WithResponse (Target.ptr 0), Opt.WithBody [2, 3]]).sent
          = some req ∧
        req.Body = http.Payload.reader [2, 3] :=
  have h := C2_body_verbatim (quietEnv [] []) (fun _ => 0) exampleClient (ascii "POST")
    (ascii "/echo") [Opt.WithBody [1], Opt.WithResponse (Target.ptr 0), Opt.WithBody [2, 3]]
    (by simp)
  (h.2 rfl).elim (fun req hreq => ⟨req, hreq, (h.1 req hreq).1⟩)

/-! ## Errors while the form is built -/

/-- C8: in the multipart branch every failure while the form is built aborts the
call with that error, and no request is constructed or sent: a failure of
`CreateFormFile`, a failure of the write of the attachment bytes (the part records
it and `Close` reports it), and a failure of `Close`. -/
theorem C8_form_errors_abort {V : Type} (env : Env V) (heap : Nat → V) (r : request)
    (method path : Str) (opts : List Opt) (f : file) (e : Error)
    (hfile : lastFile opts = some f) :
    (((multipart.NewWriter env.boundary).CreateFormFile env.bufferFails media f.name).2 = some e →
      (Do env heap r method path opts).err = some e ∧
        (Do env heap r method path opts).sent = none) ∧
    (∀ w1, (multipart.NewWriter env.boundary).CreateFormFile env.bufferFails media f.name
          = (w1, none) →
      (w1.partWrite env.bufferFails f.data).2 = some e →
      (Do env heap r method path opts).err = some e ∧
        (Do env heap r method path opts).sent = none) ∧
    (∀ w1, (multipart.NewWriter env.boundary).CreateFormFile env.bufferFails media f.name
          = (w1, none) →
      ((w1.partWrite env.bufferFails f.data).1.Close env.bufferFails).2 = some e →
      (Do env heap r method path opts).err = some e ∧
        (Do env heap r method path opts).sent = none) := by
  have hf : (applyOpts opts).request.file = some f := by rw [applyOpts_file, hfile]
  refine ⟨?_, ?_, ?_⟩
  · intro h
    unfold Do
    simp only [hf]
    revert h
    cases h0 : env.bufferFails 0 <;>
      simp [multipart.NewWriter, multipart.Writer.CreateFormFile, multipart.Writer.closeLast,
        multipart.Buffer.Write, h0]
  · intro w1 hw1 h
    cases h0 : env.bufferFails 0 <;>
      simp [multipart.NewWriter, multipart.Writer.CreateFormFile, multipart.Writer.closeLast,
        multipart.Buffer.Write, h0] at hw1
    subst hw1
    cases h1 : env.bufferFails 1 <;>
      simp [multipart.Writer.partWrite, multipart.Buffer.Write, h1] at h
    subst h
    unfold Do
    simp [hf, multipart.NewWriter, multipart.Writer.CreateFormFile, multipart.Writer.closeLast,
        multipart.Buffer.Write, multipart.Writer.partWrite, multipart.Writer.Close, h0, h1]
  · intro w1 hw1 h
    cases h0 : env.bufferFails 0 <;>
      simp [multipart.NewWriter, multipart.Writer.CreateFormFile, multipart.Writer.closeLast,
        multipart.Buffer.Write, h0] at hw1
    subst hw1
    unfold Do
    cases h1 : env.bufferFails 1 <;> cases h2 : env.bufferFails 2 <;>
      simp [multipart.Writer.partWrite, multipart.Buffer.Write, multipart.Writer.Close,
        multipart.Writer.closeLast, h1, h2] at h <;>
      subst h <;>
      simp [hf, multipart.NewWriter, multipart.Writer.CreateFormFile, multipart.Writer.closeLast,
        multipart.Buffer.Write, multipart.Writer.partWrite, multipart.Writer.Close, h0, h1, h2]

/-- C8, instances: the write of the part header, of the attachment bytes and of the
closing delimiter fails in turn; each time `Do` returns that error and sends nothing. -/
theorem C8_form_errors_abort_witness :
    ((Do (brokenBuffer 0) (fun _ => 0) exampleClient (ascii "POST") (ascii "/upload")
        [Opt.WithFile (ascii "x.png") [1, 2, 3]]).err = some "write failed" ∧
      (Do (brokenBuffer 0) (fun _ => 0) exampleClient (ascii "POST") (ascii "/upload")
        [Opt.WithFile (ascii "x.png") [1, 2, 3]]).sent = none) ∧
    ((Do (brokenBuffer 1) (fun _ => 0) exampleClient (ascii "POST") (ascii "/upload")
        [Opt.WithFile (ascii "x.png") [1, 2, 3]]).err = some "write failed" ∧
      (Do (brokenBuffer 1) (fun _ => 0) exampleClient (ascii "POST") (ascii "/upload")
        [Opt.WithFile (ascii "x.png") [1, 2, 3]]).sent = none) ∧
    ((Do (brokenBuffer 2) (fun _ => 0) exampleClient (ascii "POST") (ascii "/upload")
        [Opt.WithFile (ascii "x.png") [1, 2, 3]]).err = some "write failed" ∧
      (Do (brokenBuffer 2) (fun _ => 0) exampleClient (ascii "POST") (ascii "/upload")
        [Opt.WithFile (ascii "x.png") [1, 2, 3]]).sent = none) :=
  ⟨(C8_form_errors_abort (brokenBuffer 0) (fun _ => 0) exampleClient (ascii "POST")
      (ascii "/upload") [Opt.WithFile (ascii "x.png") [1, 2, 3]]
      { name := ascii "x.png", data := [1, 2, 3] } "write failed" (by decide)).1 (by decide),
   (C8_form_errors_abort (brokenBuffer 1) (fun _ => 0) exampleClient (ascii "POST")
      (ascii "/upload") [Opt.WithFile (ascii "x.png") [1, 2, 3]]
      { name := ascii "x.png", data := [1, 2, 3] } "write failed" (by decide)).2.1
      { w := { chunks := [multipart.Chunk.partHeader (ascii "0f1e2d") true media (ascii "x.png")],
               writes := 1 },
        boundary := ascii "0f1e2d", lastpart := some { closed := false, we := none } }
      (by decide) (by decide),
   (C8_form_errors_abort (brokenBuffer 2) (fun _ => 0) exampleClient (ascii "POST")
      (ascii "/upload") [Opt.WithFile (ascii "x.png") [1, 2, 3]]
      { name := ascii "x.png", data := [1, 2, 3] } "write failed" (by decide)).2.2
      { w := { chunks := [multipart.Chunk.partHeader (ascii "0f1e2d") true media (ascii "x.png")],
               writes := 1 },
        boundary := ascii "0f1e2d", lastpart := some { closed := false, we := none } }
      (by decide) (by decide)⟩

/-! ## Transport failure and the response target -/

/-- C9: if the request reaches the transport and the transport fails, `Do` returns
the error of the transport and the caller memory, the response target included, is
what it was before the call: nothing is decoded. -/
theorem C9_transport_failure {V : Type} (env : Env V) (heap : Nat → V) (r : request)
    (method path : Str) (opts : List Opt) (req : http.Request) (e : Error)
    (hsent : (Do env heap r method path opts).sent = some req)
    (hfail : env.transport req = .error e) :
    (Do env heap r method path opts).err = some e ∧
      (Do env heap r method path opts).heap = heap := by
  revert hsent
  unfold Do
  simp only
  split
  · intro hsent
    simp at hsent
  · split
    · rename_i e1 htr
      intro hsent
      simp only [Option.some.injEq] at hsent
      rw [hsent, hfail] at htr
      cases htr
      exact ⟨rfl, rfl⟩
    · rename_i body htr
      intro hsent
      simp only [Option.some.injEq] at hsent
      rw [hsent, hfail] at htr
      cases htr

/-- C9, instance: the transport refuses the request; the error comes back and caller
memory is untouched. -/
theorem C9_transport_failure_witness :
    (Do brokenTransport (fun _ => 7) exampleClient (ascii "GET") (ascii "/users")
        [Opt.WithBody [123, 125], Opt.WithResponse (Target.ptr 0)]).err
        = some "connection refused" ∧
      (Do brokenTransport (fun _ => 7) exampleClient (ascii "GET") (ascii "/users")
        [Opt.WithBody [123, 125], Opt.WithResponse (Target.ptr 0)]).heap
        = fun _ => 7 :=
  C9_transport_failure brokenTransport (fun _ => 7) exampleClient (ascii "GET") (ascii "/users")
    [Opt.WithBody [123, 125], Opt.WithResponse (Target.ptr 0)]
    { Method := ascii "GET", URL := ascii "https://api.example.com/users",
      Header := GoMap.empty, Body := http.Payload.reader [123, 125] }
    "connection refused" rfl rfl

/-- C10: if the option list contains no `WithResponse`, the response target is still
nil after the fold and `Do` returns a non-nil error whatever the environment does,
in particular for every response body when construction and transmission succeed;
and whenever `Do` returns nil, the list contains a `WithResponse` whose target is
not nil. -/
theorem C10_nil_target_never_succeeds {V : Type} (env : Env V) (heap : Nat → V) (r : request)
    (method path : Str) (opts : List Opt) :
    ((∀ t, Opt.WithResponse t ∉ opts) →
      (applyOpts opts).response = Target.nil ∧
        (Do env heap r method path opts).err ≠ none) ∧
    ((Do env heap r method path opts).err = none →
      ∃ t, Opt.WithResponse t ∈ opts ∧ t ≠ Target.nil) := by
  have key : (Do env heap r method path opts).err = none →
      ∃ p, (applyOpts opts).response = Target.ptr p := by
    unfold Do
    simp only
    split
    · intro h; simp at h
    · split
      · intro h; simp at h
      · simp only [json.Decode]
        split
        · intro h; simp at h
        · split
          · intro _
            exact ⟨_, by assumption⟩
          · intro h; simp at h
  constructor
  · intro hno
    have hnil : (applyOpts opts).response = Target.nil := by
      rw [applyOpts_response, lastResponse_eq_none opts hno]
      rfl
    refine ⟨hnil, ?_⟩
    intro herr
    obtain ⟨p, hp⟩ := key herr
    rw [hnil] at hp
    cases hp
  · intro herr
    obtain ⟨p, hp⟩ := key herr
    rw [applyOpts_response] at hp
    cases hl : lastResponse opts with
    | none => rw [hl] at hp; cases hp
    | some t =>
      rw [hl] at hp
      simp only [Option.getD_some] at hp
      subst hp
      exact ⟨Target.ptr p, lastResponse_mem opts _ hl, by simp⟩

/-- C10, instances: a call without `WithResponse` fails although nothing else does,
and a successful call had a `WithResponse` with a non-nil target. -/
theorem C10_nil_target_never_succeeds_witness :
    ((applyOpts [Opt.WithBody [123, 125]]).response = Target.nil ∧
      (Do (quietEnv [] []) (fun _ => 0) exampleClient (ascii "GET")
        (ascii "/users") [Opt.WithBody [123, 125]]).err ≠ none) ∧
    (∃ t, Opt.WithResponse t ∈ [Opt.WithResponse (Target.ptr 0)] ∧ t ≠ Target.nil) :=
  ⟨(C10_nil_target_never_succeeds (quietEnv [] []) (fun _ => 0)
      exampleClient (ascii "GET") (ascii "/users") [Opt.WithBody [123, 125]]).1
      (by simp),
   (C10_nil_target_never_succeeds (quietEnv [] []) (fun _ => 0)
      exampleClient (ascii "GET") (ascii "/users") [Opt.WithResponse (Target.ptr 0)]).2 rfl⟩

/-! ## Caller headers against the multipart default -/

theorem lastHeader_mem (opts : List Opt) (k v : Str) (h : lastHeader opts k = some v) :
    Opt.WithHeader k v ∈ opts := by
  unfold lastHeader at h
  obtain ⟨kv, hkv, hv⟩ := Option.map_eq_some'.mp h
  have hm := List.mem_of_getLast?_eq_some hkv
  obtain ⟨hm1, hm2⟩ := List.mem_filter.mp hm
  obtain ⟨x, hx, hxk⟩ := List.mem_filterMap.mp hm1
  have hk : kv.1 = k := by simpa using hm2
  cases x <;> simp [headerOf] at hxk
  subst hxk
  simp only at hk hv
  subst hk hv
  exact hx

theorem canonical_contentType : http.CanonicalMIMEHeaderKey contentType = contentType := by
  decide

/-- C7 (amended): headers are applied after the encoding branch through
`http.Header.Set`, which files every key under its canonical MIME form.  For an
option list with a `WithFile`, a header order that visits the folded header map, and
the request `Do` sends: if `k` has canonical form `Content-Type`, the last
`WithHeader(k, _)` carries `v`, and no `WithHeader` of the list uses another key of
canonical form `Content-Type`, then the outgoing `Content-Type` is `v`; and if no
`WithHeader` key of the list has canonical form `Content-Type`, the outgoing
`Content-Type` is the boundary content type of the encoder. -/
theorem C7_content_type_after_encoding {V : Type} (env : Env V) (heap : Nat → V) (r : request)
    (method path : Str) (opts : List Opt) (f : file) (req : http.Request)
    (hfile : lastFile opts = some f)
    (hrange : GoMap.RangeOf (applyOpts opts).request.header
      (env.rangeHeader (applyOpts opts).request.header))
    (hsent : (Do env heap r method path opts).sent = some req) :
    (∀ k v, http.CanonicalMIMEHeaderKey k = contentType → lastHeader opts k = some v →
      (∀ k2 v2, Opt.WithHeader k2 v2 ∈ opts →
        http.CanonicalMIMEHeaderKey k2 = contentType → k2 = k) →
      req.Header contentType = some v) ∧
    ((∀ k2 v2, Opt.WithHeader k2 v2 ∈ opts → http.CanonicalMIMEHeaderKey k2 ≠ contentType) →
      req.Header contentType = some (multipart.NewWriter env.boundary).FormDataContentType) := by
  have hf : (applyOpts opts).request.file = some f := by rw [applyOpts_file, hfile]
  obtain ⟨req0, hreq, _, hhdr⟩ := Do_sent_file env heap r method path opts f hf req hsent
  constructor
  · intro k v hk hv huniq
    rw [hreq]
    apply setHeaders_unique _ _ _ k v
    · rw [hrange.2, applyOpts_header]
      exact hv
    · exact hk
    · intro kv hkv hc
      have h1 : lastHeader opts kv.1 = some kv.2 := by
        rw [← applyOpts_header, ← hrange.2]
        exact hkv
      have h2 : kv.1 = k := huniq kv.1 kv.2 (lastHeader_mem opts _ _ h1) hc
      have h3 : kv.2 = v := by
        rw [h2, hv] at h1
        exact (Option.some.inj h1).symm
      cases kv
      simp only at h2 h3
      rw [h2, h3]
  · intro hnone
    rw [hreq, setHeaders_other, hhdr]
    · simp [http.Header.Set, GoMap.set, canonical_contentType]
    · intro kv hkv
      have h1 : lastHeader opts kv.1 = some kv.2 := by
        rw [← applyOpts_header, ← hrange.2]
        exact hkv
      exact hnone kv.1 kv.2 (lastHeader_mem opts _ _ h1)

theorem rangeOf_single (k v : Str) : GoMap.RangeOf (GoMap.set GoMap.empty k v) [(k, v)] := by
  refine ⟨by simp, ?_⟩
  intro k1 v1
  simp only [List.mem_singleton, Prod.mk.injEq, GoMap.set, GoMap.empty]
  by_cases h : k1 = k
  · simp [h, eq_comm]
  · simp [h]

theorem rangeOf_overwrite (k v1 v2 : Str) :
    GoMap.RangeOf (GoMap.set (GoMap.set GoMap.empty k v1) k v2) [(k, v2)] := by
  refine ⟨by simp, ?_⟩
  intro k1 v
  simp only [List.mem_singleton, Prod.mk.injEq, GoMap.set, GoMap.empty]
  by_cases h : k1 = k
  · simp [h, eq_comm]
  · simp [h]

theorem rangeOf_pair (k1 v1 k2 v2 : Str) (hne : k1 ≠ k2) :
    GoMap.RangeOf (GoMap.set (GoMap.set GoMap.empty k1 v1) k2 v2) [(k1, v1), (k2, v2)] := by
  refine ⟨by simp [hne], ?_⟩
  intro k v
  simp only [List.mem_cons, Prod.mk.injEq, GoMap.set, GoMap.empty, List.mem_singleton,
    List.not_mem_nil, or_false]
  by_cases h2 : k = k2
  · subst h2
    simp [Ne.symm hne, eq_comm]
  · by_cases h1 : k = k1
    · subst h1
      simp [h2, eq_comm]
    · simp [h1, h2]

/-- C7 (as stated, refuted), three option lists, each with a `WithFile`.
First: `WithHeader("Content-Type", "a")` followed by `WithHeader("Content-Type", "b")`;
the list contains `WithHeader("Content-Type", "a")` and the outgoing `Content-Type`
is `b`.  Second: `WithHeader("Content-Type", "a")` and
`WithHeader("content-type", "b")`; the header map holds both keys, and when the loop
visits `Content-Type` first the outgoing `Content-Type` is `b`, not `a`.  Third: only
`WithHeader("content-type", "b")`; no option names the key `Content-Type`, yet the
outgoing `Content-Type` is `b`, not the boundary content type. -/
theorem C7_canonical_key_collision :
    (GoMap.RangeOf
        (applyOpts [Opt.WithFile (ascii "x.png") [1, 2, 3],
          Opt.WithHeader contentType (ascii "a"),
          Opt.WithHeader contentType (ascii "b")]).request.header
        [(contentType, ascii "b")] ∧
      (Do (quietEnv [] [(contentType, ascii "b")])
          (fun _ => 0) exampleClient (ascii "POST") (ascii "/upload")
          [Opt.WithFile (ascii "x.png") [1, 2, 3],
            Opt.WithHeader contentType (ascii "a"),
            Opt.WithHeader contentType (ascii "b")]).sent.map
          (fun q => q.Header contentType) = some (some (ascii "b")) ∧
      ascii "b" ≠ ascii "a") ∧
    (GoMap.RangeOf
        (applyOpts [Opt.WithFile (ascii "x.png") [1, 2, 3],
          Opt.WithHeader contentType (ascii "a"),
          Opt.WithHeader (ascii "content-type") (ascii "b")]).request.header
        [(contentType, ascii "a"), (ascii "content-type", ascii "b")] ∧
      (Do (quietEnv [] [(contentType, ascii "a"), (ascii "content-type", ascii "b")])
          (fun _ => 0) exampleClient (ascii "POST") (ascii "/upload")
          [Opt.WithFile (ascii "x.png") [1, 2, 3],
            Opt.WithHeader contentType (ascii "a"),
            Opt.WithHeader (ascii "content-type") (ascii "b")]).sent.map
          (fun q => q.Header contentType) = some (some (ascii "b"))) ∧
    (GoMap.RangeOf
        (applyOpts [Opt.WithFile (ascii "x.png") [1, 2, 3],
          Opt.WithHeader (ascii "content-type") (ascii "b")]).request.header
        [(ascii "content-type", ascii "b")] ∧
      (Do (quietEnv [] [(ascii "content-type", ascii "b")])
          (fun _ => 0) exampleClient (ascii "POST") (ascii "/upload")
          [Opt.WithFile (ascii "x.png") [1, 2, 3],
            Opt.WithHeader (ascii "content-type") (ascii "b")]).sent.map
          (fun q => q.Header contentType) = some (some (ascii "b")) ∧
      ascii "b" ≠ (multipart.NewWriter (quietEnv [] []).boundary).FormDataContentType) :=
  ⟨⟨rangeOf_overwrite _ _ _, by decide, by decide⟩,
   ⟨rangeOf_pair _ _ _ _ (by decide), by decide⟩,
   ⟨rangeOf_single _ _, by decide, by decide⟩⟩

/-- C7 (amended), instances: a caller `Content-Type` of `image/png` overrides the
multipart default, and without caller headers the default stays. -/
theorem C7_content_type_after_encoding_witness :
    (Do (quietEnv [] [(contentType, ascii "image/png")]) (fun _ => 0) exampleClient
        (ascii "POST") (ascii "/upload")
        [Opt.WithFile (ascii "x.png") [1, 2, 3],
          Opt.WithHeader contentType (ascii "image/png")]).sent.map
        (fun q => q.Header contentType) = some (some (ascii "image/png")) ∧
    (Do (quietEnv [] []) (fun _ => 0) exampleClient (ascii "POST") (ascii "/upload")
        [Opt.WithFile (ascii "x.png") [1, 2, 3]]).sent.map
        (fun q => q.Header contentType)
      = some (some (multipart.NewWriter (quietEnv [] []).boundary).FormDataContentType) := by
  constructor
  · obtain ⟨req, hreq⟩ : ∃ req,
        (Do (quietEnv [] [(contentType, ascii "image/png")]) (fun _ => 0) exampleClient
          (ascii "POST") (ascii "/upload")
          [Opt.WithFile (ascii "x.png") [1, 2, 3],
            Opt.WithHeader contentType (ascii "image/png")]).sent = some req := ⟨_, rfl⟩
    rw [hreq, Option.map_some']
    exact congrArg some
      ((C7_content_type_after_encoding (quietEnv [] [(contentType, ascii "image/png")])
        (fun _ => 0) exampleClient (ascii "POST") (ascii "/upload")
        [Opt.WithFile (ascii "x.png") [1, 2, 3], Opt.WithHeader contentType (ascii "image/png")]
        { name := ascii "x.png", data := [1, 2, 3] }
        req (by decide) (rangeOf_single contentType (ascii "image/png")) hreq).1 contentType (ascii "image/png")
        (by decide) (by decide) (by
          intro k2 v2 hmem _
          simp at hmem
          exact hmem.1))
  · obtain ⟨req, hreq⟩ : ∃ req,
        (Do (quietEnv [] []) (fun _ => 0) exampleClient (ascii "POST") (ascii "/upload")
          [Opt.WithFile (ascii "x.png") [1, 2, 3]]).sent = some req := ⟨_, rfl⟩
    rw [hreq, Option.map_some']
    exact congrArg some
      ((C7_content_type_after_encoding (quietEnv [] []) (fun _ => 0) exampleClient
        (ascii "POST") (ascii "/upload") [Opt.WithFile (ascii "x.png") [1, 2, 3]]
        { name := ascii "x.png", data := [1, 2, 3] }
        req (by decide) ⟨by simp [quietEnv], by
          intro k v
          simp [quietEnv, applyOpts, Opt.apply, option.init, GoMap.empty]⟩ hreq).2 (by
          intro k2 v2 hmem
          simp at hmem))
